import Mathlib

/-!
Verification of the DHT11 single-wire sensor reader (`dht11/__init__.py`).

The Python module is embedded shallowly:
* a sampled GPIO level is a `Bool` (`GPIO.LOW = false`, `GPIO.HIGH = true`);
* Python `float` arithmetic on the small decimal values involved is modelled
  by exact rationals `ℚ`;
* the sensor line consumed by the busy-poll loop is a stream `Nat → Bool`
  giving the level observed at each poll; the unbounded `while` loop of
  `__collect_input` is rendered with an explicit poll budget (`fuel`), with
  `none` meaning "the loop has not exited within that budget";
* Python exceptions are rendered as explicit outcome values: `DHT11Error`
  subclasses (caught by `read`) and other exceptions (uncaught) are kept
  apart.
-/

/-- Python exceptions that are NOT subclasses of `DHT11Error`, hence are not
caught by the `except DHT11Error` clause in `DHT11.read`.
`unboundLocal` models the `UnboundLocalError` raised by
`__parse_input_data` on an empty trace (the loop variable `i` is never
bound); `attributeError` models the `AttributeError` raised at line 306
(`if self.raise_error:`) because `DHT11.__init__` never assigns
`self.raise_error`. -/
inductive PyErr where
  | unboundLocal
  | attributeError
  deriving DecidableEq

/-- The two `DHT11Error` subclasses that one attempt of `DHT11.read` can
raise and catch: `DHT11InvalidDataError` (pulse count ≠ 40) and
`DHT11ChecksumError`. -/
inductive DHT11Err where
  | invalidData
  | checksum
  deriving DecidableEq

/-- Status constant `DHT11Response.STATUS_OK`. -/
def STATUS_OK : Nat := 0

/-- Status constant `DHT11Response.STATUS_ERROR_CHECKSUM`; declared on the
response surface but, as claim C10 investigates, never the status of a
returned response. -/
def STATUS_ERROR_CHECKSUM : Nat := 1

/-- Status constant `DHT11Response.STATUS_ERROR_TIMEOUT`. -/
def STATUS_ERROR_TIMEOUT : Nat := 2

/-- `DHT11Response(status, temperature=-1, humidity=-1)`. -/
structure Response where
  status : Nat
  temperature : ℚ
  humidity : ℚ
  deriving DecidableEq

/-- `DHT11Response.is_valid`. -/
def Response.is_valid (r : Response) : Bool :=
  r.status == STATUS_OK

/-- First loop of `DHT11.__parse_input_data` (lines 178-184): scan for the
Low→High→Low start-of-frame pattern, tracking the `pattern` state variable.
Returns the final loop index paired with `true` if the `break` was taken
(`.1` is the break index then), or `false` if the loop ran to completion. -/
def findStartAux (idx pat : Nat) : List Bool → Nat × Bool
  | [] => (idx, false)
  | d :: rest =>
    let pat1 := if pat = 0 ∧ d = false then 1 else pat
    let pat2 := if pat1 = 1 ∧ d = true then 2 else pat1
    if pat2 = 2 ∧ d = false then (idx, true)
    else findStartAux (idx + 1) pat2 rest

/-- Second loop of `DHT11.__parse_input_data` (lines 188-196): count runs of
consecutive `High` samples; each run terminated by a `Low` sample with
positive length is emitted; a trailing unterminated run is dropped.
`run` is the `high_signal_length` accumulator. -/
def countRuns : List Bool → Nat → List Nat
  | [], _ => []
  | d :: rest, run =>
    if d then countRuns rest (run + 1)
    else if run > 0 then run :: countRuns rest 0
    else countRuns rest 0

/-- `DHT11.__parse_input_data`. On the empty list the Python function raises
`UnboundLocalError`: the `for i in range(0)` loop never binds `i`, so the
guard `if i >= input_length` fails with an uncaught exception; this is
modelled as `none`. For a non-empty list, after the first loop `i` is the
break index if the Low→High→Low scan broke, else `input_length - 1`; the
dead guard `if i >= input_length: return signals` is kept as in the source. -/
def parse_input_data (data : List Bool) : Option (List Nat) :=
  if data.isEmpty then none
  else
    let input_length := data.length
    let fs := findStartAux 0 0 data
    let i := if fs.2 then fs.1 else input_length - 1
    if input_length ≤ i then some []
    else some (countRuns (data.drop i) 0)

/-- Python `min` over a non-empty list (`min(signals)`); the `[]` case is
never reached by the program, which guards `len(signals) == 40` first. -/
def listMin : List Nat → Nat
  | [] => 0
  | x :: xs => xs.foldl Nat.min x

/-- Python `max` over a non-empty list (`max(signals)`). -/
def listMax : List Nat → Nat
  | [] => 0
  | x :: xs => xs.foldl Nat.max x

/-- `DHT11.__calculate_bits`: `half_length = (min(signals) + max(signals)) / 2`
is Python true division, hence an exact midpoint, modelled in `ℚ`;
the accumulator is shifted left one bit per signal and the low bit is set
when `signal > half_length`; the result is split into 5 bytes MSB first. -/
def calculate_bits (signals : List Nat) : List Nat :=
  let half_length : ℚ := ((listMin signals : ℚ) + (listMax signals : ℚ)) / 2
  let bits := signals.foldl
    (fun (bits signal : Nat) =>
      let b := bits <<< 1
      if (signal : ℚ) > half_length then b ||| 1 else b) 0
  [(bits >>> 32) &&& 0xFF,
   (bits >>> 24) &&& 0xFF,
   (bits >>> 16) &&& 0xFF,
   (bits >>> 8) &&& 0xFF,
   bits &&& 0xFF]

/-- `DHT11.__validate_checksum`:
`bytes[4] == (bytes[0] + bytes[1] + bytes[2] + bytes[3]) & 0xFF`. -/
def validate_checksum (bytes : List Nat) : Bool :=
  bytes.getD 4 0 == (bytes.getD 0 0 + bytes.getD 1 0 + bytes.getD 2 0 + bytes.getD 3 0) &&& 0xFF

/-- Humidity derivation in `DHT11.read` (line 293):
`humidity = bytes[0] + bytes[1] / 10`. -/
def derive_humidity (bytes : List Nat) : ℚ :=
  (bytes.getD 0 0 : ℚ) + (bytes.getD 1 0 : ℚ) / 10

/-- Temperature derivation in `DHT11.read` (lines 294-297):
`temperature = bytes[2] + (bytes[3] & 0x7F) / 10`, then
`temperature *= -1` when `bytes[3] & 0x80` is non-zero. -/
def derive_temperature (bytes : List Nat) : ℚ :=
  let t : ℚ := (bytes.getD 2 0 : ℚ) + ((bytes.getD 3 0 &&& 0x7F : Nat) : ℚ) / 10
  if bytes.getD 3 0 &&& 0x80 ≠ 0 then t * (-1) else t

/-- Outcome of the `try` body of one iteration of the retry loop in
`DHT11.read` (lines 273-300), with the raw trace of the attempt supplied by
a sampler stub in place of `__collect_input`. -/
inductive AttemptResult where
  | success (r : Response)
  | failure (e : DHT11Err)
  | crash (e : PyErr)
  deriving DecidableEq

/-- Whether an attempt raised a `DHT11Error` (caught by the retry loop). -/
def AttemptResult.isFailure : AttemptResult → Bool
  | .failure _ => true
  | _ => false

/-- One attempt body of `DHT11.read` (lines 282-300) applied to a given raw
trace: parse, check the 40-pulse length (`DHT11InvalidDataError`), decode
bits, validate the checksum (`DHT11ChecksumError`), derive values and build
the `STATUS_OK` response. -/
def attempt (trace : List Bool) : AttemptResult :=
  match parse_input_data trace with
  | none => .crash .unboundLocal
  | some signals =>
    if signals.length ≠ 40 then .failure .invalidData
    else
      let bytes := calculate_bits signals
      if validate_checksum bytes then
        .success ⟨STATUS_OK, derive_temperature bytes, derive_humidity bytes⟩
      else .failure .checksum

/-- What a call of `DHT11.read` does: either return a response or raise an
uncaught Python exception. -/
inductive ReadOutcome where
  | ok (r : Response)
  | err (e : PyErr)
  deriving DecidableEq

/-- Observable result of `DHT11.read`: its outcome, the number of attempts
performed (the final value of `try_count`, counting the attempt in progress
when an uncaught exception escapes), and the list of inter-attempt
`time.sleep(self.min_interval)` delays executed, in order. The fixed
per-attempt handshake delays (0.5 s, 50 ms, 20 ms) are GPIO-side effects
outside the modelled core and are not recorded. -/
structure ReadResult where
  outcome : ReadOutcome
  attempts : Nat
  sleeps : List ℚ
  deriving DecidableEq

/-- Retry loop of `DHT11.read` (lines 270-308). `remaining` is
`max_tries - try_count`, so `remaining = 0` is exactly the exit of
`while self.max_tries > try_count`; `t` is `try_count` and `s` the delays
slept so far. Attempt number `t` (0-based) samples the stub trace
`traces t`. A `DHT11Error` increments `try_count` and sleeps
`min_interval`; any other exception propagates. On exhaustion the code
evaluates `self.raise_error`, an attribute `__init__` never assigned, so
Python raises `AttributeError` regardless of the constructor flag and the
`STATUS_ERROR_TIMEOUT` response on line 308 is unreachable. -/
def readLoop (traces : Nat → List Bool) (min_interval : ℚ) :
    Nat → Nat → List ℚ → ReadResult
  | 0, t, s => ⟨.err .attributeError, t, s⟩
  | remaining + 1, t, s =>
    match attempt (traces t) with
    | .success resp => ⟨.ok resp, t + 1, s⟩
    | .failure _ => readLoop traces min_interval remaining (t + 1) (s ++ [min_interval])
    | .crash e => ⟨.err e, t + 1, s⟩

/-- State of a `DHT11` instance after `__init__` (lines 116-119): only
`signal_pin`, `max_tries` and `min_interval` are assigned; there is no
`raise_error` field because `__init__` drops its `raise_error` parameter. -/
structure DHT11State where
  signal_pin : Nat
  max_tries : Nat
  min_interval : ℚ
  deriving DecidableEq

/-- `DHT11.__init__(signal_pin, max_tries=10, min_interval=2, raise_error=False)`:
the `raise_error` argument is accepted but never stored on the instance. -/
def DHT11.init (signal_pin max_tries : Nat) (min_interval : ℚ)
    (raise_error : Bool) : DHT11State :=
  let _ := raise_error
  ⟨signal_pin, max_tries, min_interval⟩

/-- `DHT11.read`, with the raw trace of each attempt supplied by a sampler
stub `traces` in place of the GPIO handshake plus `__collect_input`. -/
def DHT11.read (sensor : DHT11State) (traces : Nat → List Bool) : ReadResult :=
  readLoop traces sensor.min_interval sensor.max_tries 0 []

/-- Busy-poll loop of `DHT11.__collect_input` (lines 151-158) on a level
stream, with an explicit poll budget. `idx` is the number of polls done,
`last` the `last` variable (`none` models its initial value `-1`, distinct
from both levels), `cnt` the `unchanged_count`. Each iteration checks
`unchanged_count < 200`, appends one sampled level, resets the counter to 1
on a change and increments it otherwise. `none` means the loop has not
exited within `fuel` further iterations. -/
def collectLoop (stream : Nat → Bool) :
    Nat → Nat → Option Bool → Nat → Option (List Bool)
  | 0, _, _, cnt => if cnt < 200 then none else some []
  | fuel + 1, idx, last, cnt =>
    if cnt < 200 then
      let current := stream idx
      let reset := last ≠ some current
      let last' := if reset then some current else last
      let cnt' := if reset then 1 else cnt + 1
      (collectLoop stream fuel (idx + 1) last' cnt').map (fun rest => current :: rest)
    else some []

/-- `DHT11.__collect_input` on a level stream with a poll budget. -/
def collect_input (stream : Nat → Bool) (fuel : Nat) : Option (List Bool) :=
  collectLoop stream fuel 0 none 0

/-- Length of the maximal constant suffix of the first `n` samples of the
stream: the value `unchanged_count` holds after the loop body has processed
sample `n - 1`. -/
def runlen (stream : Nat → Bool) : Nat → Nat
  | 0 => 0
  | 1 => 1
  | n + 2 => if stream (n + 1) = stream n then runlen stream (n + 1) + 1 else 1

/-- The `last` variable of `__collect_input` after `n` samples. -/
def lastOf (stream : Nat → Bool) : Nat → Option Bool
  | 0 => none
  | n + 1 => some (stream n)

/-- A level stream that flips on every poll, so that no run of 2 (let alone
200) identical consecutive samples ever occurs. -/
def altStream : Nat → Bool := fun i => decide (i % 2 = 0)

/-- The sensor data section of a well-formed trace: 40 pulses, each a
positive run of `High` samples terminated by a positive run of `Low`
samples. -/
def pulses : List Nat → List Nat → List Bool
  | w :: ws, g :: gs =>
      List.replicate w true ++ List.replicate g false ++ pulses ws gs
  | _, _ => []

/-- A well-formed raw trace: an idle `High` prefix of length `p`, the
start-of-frame marker (`q` Lows, `r` Highs, then `s` Lows), the data pulses,
and a trailing unterminated `High` run of length `tailHighs`. -/
def mkTrace (p q r s : Nat) (widths gaps : List Nat) (tailHighs : Nat) : List Bool :=
  List.replicate p true ++ List.replicate q false ++ List.replicate r true ++
    List.replicate s false ++ pulses widths gaps ++ List.replicate tailHighs true

/-- A concrete well-formed trace whose 40 pulses all have width 1; it decodes
to the all-zero frame, whose checksum is valid. -/
def validTrace : List Bool :=
  mkTrace 0 1 1 1 (List.replicate 40 1) (List.replicate 40 1) 0

/-- The trace contains a Low sample. -/
def hasL (l : List Bool) : Prop :=
  ∃ c < l.length, l.getD c true = false

/-- The trace contains a High sample followed later by a Low sample. -/
def hasHL (l : List Bool) : Prop :=
  ∃ c < l.length, ∃ b < c, l.getD b false = true ∧ l.getD c true = false

/-- The trace contains a Low-then-High-then-Low pattern: three positions
`a < b < c` holding Low, High, Low respectively. -/
def hasLHL (l : List Bool) : Prop :=
  ∃ c < l.length, ∃ b < c, ∃ a < b,
    l.getD a true = false ∧ l.getD b false = true ∧ l.getD c true = false

/-- Threshold of the bit decoder as the spec states it:
`(min(widths) + max(widths)) / 2`. -/
def thresholdOf (signals : List Nat) : ℚ :=
  ((listMin signals : ℚ) + (listMax signals : ℚ)) / 2

/-- Value of a bit pattern read most-significant bit first. -/
def bitsVal (bs : List Bool) : Nat :=
  bs.foldl (fun a b => 2 * a + (if b then 1 else 0)) 0

/-- The 5 bytes of a 40-bit value, most-significant byte first, as the spec
states them: byte0 = bits [39:32], …, byte4 = bits [7:0]. -/
def bytesOfVal (v : Nat) : List Nat :=
  [v / 2 ^ 32 % 256, v / 2 ^ 24 % 256, v / 2 ^ 16 % 256, v / 2 ^ 8 % 256, v % 256]

/-- The bit pattern the decoder is specified to extract: one bit per width,
in order, set exactly when the width exceeds the threshold. -/
def specBits (signals : List Nat) : List Bool :=
  signals.map (fun (s : Nat) => decide ((s : ℚ) > thresholdOf signals))

/-- The spec's reference width pattern: forty widths alternating between a
short cluster (10 polls) and a long cluster (50 polls). -/
def altWidths : List Nat :=
  (List.range 40).map (fun i => if i % 2 = 0 then 10 else 50)

/-- The bit pattern corresponding to `altWidths`: the short widths give 0,
the long widths give 1. -/
def altPattern : List Bool :=
  (List.range 40).map (fun i => decide (i % 2 ≠ 0))

/-- A sampler stub whose first attempt yields a trace with no pulses (so the
attempt raises `DHT11InvalidDataError`) and whose later attempts yield the
valid all-zero trace. -/
def failThenValid : Nat → List Bool :=
  fun n => if n = 0 then [false] else validTrace

/-- A sampler stub all of whose attempts yield a pulse-free trace, so every
attempt raises `DHT11InvalidDataError`. -/
def alwaysFail : Nat → List Bool :=
  fun _ => [false]

/-- The constant-Low level stream: the line idles immediately. -/
def constLow : Nat → Bool := fun _ => false

set_option maxRecDepth 40000

/-! ### Arithmetic helpers for the bit-level operations -/

/-- Setting the (clear) low bit of an even number adds one. -/
theorem two_mul_or_one (a : Nat) : 2 * a ||| 1 = 2 * a + 1 := by
  apply Nat.eq_of_testBit_eq
  intro i
  cases i with
  | zero =>
    simp only [Nat.testBit_or, Nat.testBit_zero]
    have h1 : 2 * a % 2 = 0 := by omega
    have h2 : (2 * a + 1) % 2 = 1 := by omega
    simp [h1, h2]
  | succ j =>
    rw [Nat.testBit_or, Nat.testBit_add_one (2 * a), Nat.testBit_add_one 1,
      Nat.testBit_add_one (2 * a + 1)]
    have h1 : 2 * a / 2 = a := by omega
    have h2 : (2 * a + 1) / 2 = a := by omega
    have h3 : (1 : Nat) / 2 = 0 := by norm_num
    rw [h1, h2, h3]
    simp

/-- Variant of `two_mul_or_one` with the factor on the right. -/
theorem mul_two_or_one (a : Nat) : a * 2 ||| 1 = a * 2 + 1 := by
  rw [Nat.mul_comm]
  exact two_mul_or_one a

/-- Masking with `0xFF` is reduction mod 256. -/
theorem and_255 (x : Nat) : x &&& 255 = x % 256 := by
  have h := Nat.and_pow_two_sub_one_eq_mod x 8
  norm_num at h
  exact h

/-- Masking with `0x7F` is reduction mod 128. -/
theorem and_127 (x : Nat) : x &&& 127 = x % 128 := by
  have h := Nat.and_pow_two_sub_one_eq_mod x 7
  norm_num at h
  exact h

/-- For a byte, the `0x80` mask tests the top bit. -/
theorem and_128_byte : ∀ x < 256, (x &&& 128 = 0 ↔ x < 128) := by decide

/-- The accumulator loop of `__calculate_bits` (shift left, set the low bit
when the width exceeds the threshold) computes the MSB-first value of the
per-width comparison bits. -/
theorem foldl_bits_eq (thr : ℚ) (l : List Nat) : ∀ acc : Nat,
    l.foldl (fun (bits signal : Nat) =>
      let b := bits <<< 1
      if (signal : ℚ) > thr then b ||| 1 else b) acc
    = (l.map (fun (s : Nat) => decide ((s : ℚ) > thr))).foldl
        (fun a b => 2 * a + (if b then 1 else 0)) acc := by
  induction l with
  | nil => intro acc; rfl
  | cons s rest ih =>
    intro acc
    simp only [List.foldl_cons, List.map_cons]
    rw [ih]
    congr 1
    by_cases h : (s : ℚ) > thr
    · simp only [h, if_pos, decide_eq_true_eq, if_true]
      simp [Nat.shiftLeft_eq, Nat.mul_comm, mul_two_or_one]
    · simp only [h, if_neg, decide_eq_false h]
      simp [Nat.shiftLeft_eq, Nat.mul_comm]

/-- `__calculate_bits` equals the spec-side pipeline: map each width to its
threshold bit, read the 40 bits MSB first, split into 5 bytes MSB first. -/
theorem calculate_bits_eq (signals : List Nat) :
    calculate_bits signals = bytesOfVal (bitsVal (specBits signals)) := by
  unfold calculate_bits bytesOfVal bitsVal specBits thresholdOf
  simp only []
  rw [foldl_bits_eq]
  simp [Nat.shiftRight_eq_div_pow, and_255]

/-- A run of clear bits contributes nothing to the accumulated value when the
accumulator is zero. -/
theorem bitsVal_replicate_false : ∀ n, bitsVal (List.replicate n false) = 0 := by
  intro n
  induction n with
  | zero => rfl
  | succ k ih =>
    rw [List.replicate_succ]
    simpa [bitsVal] using ih

/-- `listMin` of the all-ones width list. -/
theorem listMin_ones : listMin (List.replicate 40 1) = 1 := by decide

/-- `listMax` of the all-ones width list. -/
theorem listMax_ones : listMax (List.replicate 40 1) = 1 := by decide

/-- The all-ones width list decodes to the all-zero bit pattern: the
threshold is 1 and no width is strictly greater than 1. -/
theorem specBits_ones : specBits (List.replicate 40 1) = List.replicate 40 false := by
  unfold specBits thresholdOf
  rw [listMin_ones, listMax_ones, List.map_replicate]
  congr 1
  apply decide_eq_false
  norm_num

/-- Evaluation of one attempt on the concrete valid trace: the 40 width-1
pulses decode to the all-zero frame, whose checksum passes, and the derived
temperature and humidity are 0. -/
theorem attempt_validTrace : attempt validTrace = .success ⟨STATUS_OK, 0, 0⟩ := by
  have hp : parse_input_data validTrace = some (List.replicate 40 1) := by decide
  have hb : calculate_bits (List.replicate 40 1) = [0, 0, 0, 0, 0] := by
    rw [calculate_bits_eq, specBits_ones, bitsVal_replicate_false]
    norm_num [bytesOfVal]
  unfold attempt
  rw [hp]
  simp only [List.length_replicate, hb]
  norm_num [validate_checksum, derive_temperature, derive_humidity]

/-! ### C4 - checksum acceptance -/

/-- C4: for every byte quadruple `(b0,b1,b2,b3)` with each byte in 0..255 and
every candidate checksum byte `b4`, `__validate_checksum` accepts the frame
`[b0,b1,b2,b3,b4]` iff `b4 = (b0+b1+b2+b3) mod 256`. -/
theorem checksum_accepts_iff (b0 b1 b2 b3 b4 : Nat)
    (hb0 : b0 < 256) (hb1 : b1 < 256) (hb2 : b2 < 256) (hb3 : b3 < 256)
    (hb4 : b4 < 256) :
    validate_checksum [b0, b1, b2, b3, b4] = true ↔
      b4 = (b0 + b1 + b2 + b3) % 256 := by
  simp [validate_checksum, and_255]

/-- Witness for C4 at the concrete frame `[1,2,3,4,10]`:
`(1+2+3+4) mod 256 = 10`, and the validator indeed accepts. -/
theorem checksum_accepts_iff_witness : validate_checksum [1, 2, 3, 4, 10] = true :=
  (checksum_accepts_iff 1 2 3 4 10 (by norm_num) (by norm_num) (by norm_num)
    (by norm_num) (by norm_num)).mpr (by norm_num)

/-! ### C5 - value derivation of an accepted frame -/

/-- C5: for every accepted 5-byte frame, `read` derives
`humidity = b0 + b1/10` and `temperature = b2 + (b3 mod 128)/10`, negated
exactly when the top bit of `b3` is set (`b3 ≥ 128` for a byte); in
particular the frame `[40,2,23,5,70]` is accepted and yields humidity 40.2
and temperature 23.5, and the accepted frame `[50,0,25,0x85,208]` (byte3 =
`0x85`, temperature integer part 25) yields temperature -25.5. -/
theorem accepted_frame_derivation :
    (∀ b0 b1 b2 b3 b4 : Nat, b3 < 256 →
      validate_checksum [b0, b1, b2, b3, b4] = true →
      derive_humidity [b0, b1, b2, b3, b4] = (b0 : ℚ) + (b1 : ℚ) / 10 ∧
      derive_temperature [b0, b1, b2, b3, b4] =
        (if 128 ≤ b3 then -((b2 : ℚ) + ((b3 % 128 : Nat) : ℚ) / 10)
         else (b2 : ℚ) + ((b3 % 128 : Nat) : ℚ) / 10)) ∧
    validate_checksum [40, 2, 23, 5, 70] = true ∧
    derive_humidity [40, 2, 23, 5, 70] = 40.2 ∧
    derive_temperature [40, 2, 23, 5, 70] = 23.5 ∧
    validate_checksum [50, 0, 25, 133, 208] = true ∧
    derive_temperature [50, 0, 25, 133, 208] = -25.5 := by
  refine ⟨?_, by decide, ?_, ?_, by decide, ?_⟩
  · intro b0 b1 b2 b3 b4 hb3 _hacc
    refine ⟨by simp [derive_humidity], ?_⟩
    have hb := and_128_byte b3 hb3
    by_cases hc : 128 ≤ b3
    · have hne : b3 &&& 128 ≠ 0 := fun h0 => absurd (hb.mp h0) (by omega)
      simp [derive_temperature, and_127, hne, hc]
    · have he : b3 &&& 128 = 0 := hb.mpr (by omega)
      simp [derive_temperature, and_127, he, hc]
  · have e2 : (2 : Nat) % 128 = 2 := by norm_num
    norm_num [derive_humidity]
  · have e1 : (5 : Nat) &&& 128 = 0 := by decide
    have e2 : (5 : Nat) &&& 127 = 5 := by decide
    simp [derive_temperature, e1, e2]
    norm_num
  · have e1 : (133 : Nat) &&& 128 = 128 := by decide
    have e2 : (133 : Nat) &&& 127 = 5 := by decide
    simp [derive_temperature, e1, e2]
    norm_num

/-- Witness for C5: the general derivation rule applied to the concrete
accepted frame `[40,2,23,5,70]`. -/
theorem accepted_frame_derivation_witness :
    derive_humidity [40, 2, 23, 5, 70] = (40 : ℚ) + (2 : ℚ) / 10 ∧
    derive_temperature [40, 2, 23, 5, 70] =
      (if 128 ≤ 5 then -((23 : ℚ) + ((5 % 128 : Nat) : ℚ) / 10)
       else (23 : ℚ) + ((5 % 128 : Nat) : ℚ) / 10) :=
  accepted_frame_derivation.1 40 2 23 5 70 (by norm_num) (by decide)

/-! ### C6 - bit decoder -/

/-- C6: for every list of 40 pulse widths, `__calculate_bits` computes the
threshold `(min + max)/2`, builds the 40-bit value whose bits (MSB first,
in input order) are set exactly when the width exceeds the threshold, and
returns its 5 bytes MSB first (`bytesOfVal ∘ bitsVal ∘ specBits`); and for
any bit pattern `p` such that the widths split into a cluster strictly
below the threshold (where `p` is clear) and a cluster strictly above it
(where `p` is set), the decoder returns exactly the byte sequence of `p`. -/
theorem bit_decoder_correct (signals : List Nat) (hlen : signals.length = 40) :
    calculate_bits signals = bytesOfVal (bitsVal (specBits signals)) ∧
    ∀ p : List Bool, p.length = 40 →
      (∀ i, i < 40 →
        (p.getD i false = true → thresholdOf signals < (signals.getD i 0 : ℚ)) ∧
        (p.getD i false = false → (signals.getD i 0 : ℚ) < thresholdOf signals)) →
      calculate_bits signals = bytesOfVal (bitsVal p) := by
  refine ⟨calculate_bits_eq signals, ?_⟩
  intro p hp hcl
  rw [calculate_bits_eq signals]
  congr 2
  apply List.ext_getElem
  · simp [specBits, hlen, hp]
  · intro i h1 h2
    have hsl : (specBits signals).length = signals.length := by simp [specBits]
    have hi : i < 40 := hp ▸ h2
    have hiw : i < signals.length := hsl ▸ h1
    have hgd : p.getD i false = p[i] := List.getD_eq_getElem p false h2
    have hgw : signals.getD i 0 = signals[i] := List.getD_eq_getElem signals 0 hiw
    have hm : (specBits signals)[i] = decide ((signals[i] : ℚ) > thresholdOf signals) := by
      simp [specBits]
    rw [hm]
    rcases hb : p[i] with _ | _
    · have hlt := (hcl i hi).2 (by rw [hgd, hb])
      rw [hgw] at hlt
      simp only [decide_eq_false_iff_not]
      exact fun hgt => absurd hlt (by exact not_lt.mpr (le_of_lt hgt))
    · have hgt := (hcl i hi).1 (by rw [hgd, hb])
      rw [hgw] at hgt
      simp [hgt]

/-- Witness for C6: the spec's alternating reference widths (10 short, 50
long) with threshold 30 reproduce the byte sequence of the alternating bit
pattern. -/
theorem bit_decoder_correct_witness :
    calculate_bits altWidths = bytesOfVal (bitsVal altPattern) := by
  have hnat : ∀ i, i < 40 →
      (altPattern.getD i false = true → 30 < altWidths.getD i 0) ∧
      (altPattern.getD i false = false → altWidths.getD i 0 < 30) := by decide
  have hthr : thresholdOf altWidths = 30 := by
    have h1 : listMin altWidths = 10 := by decide
    have h2 : listMax altWidths = 50 := by decide
    unfold thresholdOf
    rw [h1, h2]
    norm_num
  refine (bit_decoder_correct altWidths (by decide)).2 altPattern (by decide) ?_
  intro i hi
  have h := hnat i hi
  rw [hthr]
  constructor
  · intro ht
    exact_mod_cast h.1 ht
  · intro hf
    exact_mod_cast h.2 hf

/-! ### Pulse extractor: stepping lemmas for the marker scan -/

/-- With `pattern = 0`, a High sample leaves the scan in state 0. -/
theorem findStartAux_h0 (idx : Nat) (l : List Bool) :
    findStartAux idx 0 (true :: l) = findStartAux (idx + 1) 0 l := rfl

/-- With `pattern = 0`, a Low sample moves the scan to state 1. -/
theorem findStartAux_l0 (idx : Nat) (l : List Bool) :
    findStartAux idx 0 (false :: l) = findStartAux (idx + 1) 1 l := rfl

/-- With `pattern = 1`, a Low sample leaves the scan in state 1. -/
theorem findStartAux_l1 (idx : Nat) (l : List Bool) :
    findStartAux idx 1 (false :: l) = findStartAux (idx + 1) 1 l := rfl

/-- With `pattern = 1`, a High sample moves the scan to state 2 (no break on
the same sample, which is High). -/
theorem findStartAux_h1 (idx : Nat) (l : List Bool) :
    findStartAux idx 1 (true :: l) = findStartAux (idx + 1) 2 l := rfl

/-- With `pattern = 2`, a High sample leaves the scan in state 2. -/
theorem findStartAux_h2 (idx : Nat) (l : List Bool) :
    findStartAux idx 2 (true :: l) = findStartAux (idx + 1) 2 l := rfl

/-- With `pattern = 2`, a Low sample takes the break at the current index. -/
theorem findStartAux_l2 (idx : Nat) (l : List Bool) :
    findStartAux idx 2 (false :: l) = (idx, true) := rfl

/-- The state-0 scan walks over a High prefix. -/
theorem findStartAux_skip_h0 (rest : List Bool) :
    ∀ (p idx : Nat),
      findStartAux idx 0 (List.replicate p true ++ rest) = findStartAux (idx + p) 0 rest := by
  intro p
  induction p with
  | zero => intro idx; simp
  | succ k ih =>
    intro idx
    rw [List.replicate_succ, List.cons_append, findStartAux_h0, ih]
    congr 1
    omega

/-- The state-1 scan walks over a Low run. -/
theorem findStartAux_skip_l1 (rest : List Bool) :
    ∀ (q idx : Nat),
      findStartAux idx 1 (List.replicate q false ++ rest) = findStartAux (idx + q) 1 rest := by
  intro q
  induction q with
  | zero => intro idx; simp
  | succ k ih =>
    intro idx
    rw [List.replicate_succ, List.cons_append, findStartAux_l1, ih]
    congr 1
    omega

/-- The state-2 scan walks over a High run. -/
theorem findStartAux_skip_h2 (rest : List Bool) :
    ∀ (r idx : Nat),
      findStartAux idx 2 (List.replicate r true ++ rest) = findStartAux (idx + r) 2 rest := by
  intro r
  induction r with
  | zero => intro idx; simp
  | succ k ih =>
    intro idx
    rw [List.replicate_succ, List.cons_append, findStartAux_h2, ih]
    congr 1
    omega

/-- On a trace of the form `H^p L^q H^r L…` with non-empty marker segments,
the scan breaks exactly at the Low sample of index `p + q + r`. -/
theorem findStartAux_marker (p q r : Nat) (hq : 0 < q) (hr : 0 < r) (rest : List Bool) :
    findStartAux 0 0 (List.replicate p true ++ (List.replicate q false ++
      (List.replicate r true ++ false :: rest))) = (p + q + r, true) := by
  obtain ⟨q', rfl⟩ : ∃ q', q = q' + 1 := ⟨q - 1, by omega⟩
  obtain ⟨r', rfl⟩ : ∃ r', r = r' + 1 := ⟨r - 1, by omega⟩
  rw [findStartAux_skip_h0]
  rw [List.replicate_succ, List.cons_append, findStartAux_l0, findStartAux_skip_l1]
  rw [List.replicate_succ, List.cons_append, findStartAux_h1, findStartAux_skip_h2]
  rw [findStartAux_l2]
  congr 1
  omega

/-! ### Pulse extractor: run-counting lemmas -/

/-- Low samples with an empty run accumulator emit nothing. -/
theorem countRuns_skip_low (rest : List Bool) :
    ∀ k, countRuns (List.replicate k false ++ rest) 0 = countRuns rest 0 := by
  intro k
  induction k with
  | zero => simp
  | succ j ih =>
    rw [List.replicate_succ, List.cons_append]
    simpa [countRuns] using ih

/-- A High run adds its length to the run accumulator. -/
theorem countRuns_high (rest : List Bool) :
    ∀ (w run : Nat), countRuns (List.replicate w true ++ rest) run = countRuns rest (run + w) := by
  intro w
  induction w with
  | zero => intro run; simp
  | succ k ih =>
    intro run
    rw [List.replicate_succ, List.cons_append]
    simp only [countRuns, if_true]
    rw [ih]
    congr 1
    omega

/-- A Low sample terminating a positive run emits it and resets. -/
theorem countRuns_emit (rest : List Bool) (run : Nat) (h : 0 < run) :
    countRuns (false :: rest) run = run :: countRuns rest 0 := by
  simp [countRuns, h]

/-- A trailing unterminated High run emits nothing. -/
theorem countRuns_tail_high : ∀ (k run : Nat), countRuns (List.replicate k true) run = [] := by
  intro k
  induction k with
  | zero => intro run; rfl
  | succ j ih =>
    intro run
    rw [List.replicate_succ]
    simpa [countRuns] using ih (run + 1)

/-- Counting runs over the pulse section (each pulse a positive High run
terminated by a positive Low run) followed by a trailing High run recovers
exactly the list of pulse widths, in order. -/
theorem countRuns_pulses (tailn : Nat) :
    ∀ (widths gaps : List Nat), widths.length = gaps.length →
      (∀ w ∈ widths, 0 < w) → (∀ g ∈ gaps, 0 < g) →
      countRuns (pulses widths gaps ++ List.replicate tailn true) 0 = widths := by
  intro widths
  induction widths with
  | nil =>
    intro gaps hl _ _
    cases gaps with
    | nil => simp [pulses, countRuns_tail_high]
    | cons g gs => simp at hl
  | cons w ws ih =>
    intro gaps hl hw hg
    cases gaps with
    | nil => simp at hl
    | cons g gs =>
      have hw0 : 0 < w := hw w (by simp)
      have hg0 : 0 < g := hg g (by simp)
      obtain ⟨g', rfl⟩ : ∃ g', g = g' + 1 := ⟨g - 1, by omega⟩
      simp only [pulses, List.append_assoc]
      rw [countRuns_high]
      rw [List.replicate_succ, List.cons_append, countRuns_emit _ _ (by omega)]
      rw [countRuns_skip_low]
      rw [Nat.zero_add]
      congr 1
      exact ih gs (by simpa using hl) (fun x hx => hw x (by simp [hx]))
        (fun x hx => hg x (by simp [hx]))

/-! ### Pulse extractor: assembled parse results -/

/-- Evaluation of `__parse_input_data` when the marker scan breaks at a
valid index `i`. -/
theorem parse_eq_break (data : List Bool) (i : Nat) (hne : data ≠ [])
    (hfs : findStartAux 0 0 data = (i, true)) (hin : i < data.length) :
    parse_input_data data = some (countRuns (data.drop i) 0) := by
  have hemp : data.isEmpty = false := List.isEmpty_eq_false.mpr hne
  have hle : ¬ (data.length ≤ i) := by omega
  simp [parse_input_data, hemp, hfs, hle]

/-- Evaluation of `__parse_input_data` when the marker scan runs to
completion without breaking: the second loop starts at `input_length - 1`. -/
theorem parse_eq_no_break (data : List Bool) (hne : data ≠ [])
    (hfs : (findStartAux 0 0 data).2 = false) :
    parse_input_data data = some (countRuns (data.drop (data.length - 1)) 0) := by
  have hemp : data.isEmpty = false := List.isEmpty_eq_false.mpr hne
  have hlen : 0 < data.length := List.length_pos.mpr hne
  have hle : ¬ (data.length ≤ data.length - 1) := by omega
  simp [parse_input_data, hemp, hfs, hle]

/-! ### C7 - well-formed traces -/

/-- C7: for every trace consisting of an idle High prefix, a Low→High→Low
start-of-frame marker (the closing Low run has positive length `s`),
exactly 40 clean high-pulses (each a positive High run terminated by a
positive Low run), and a trailing unterminated High run (dropped),
`__parse_input_data` yields exactly the 40 run lengths in capture order. -/
theorem well_formed_trace_parses (p q r s tailn : Nat) (widths gaps : List Nat)
    (hq : 0 < q) (hr : 0 < r) (hs : 0 < s)
    (hwlen : widths.length = 40) (hglen : gaps.length = 40)
    (hw : ∀ w ∈ widths, 0 < w) (hg : ∀ g ∈ gaps, 0 < g) :
    parse_input_data (mkTrace p q r s widths gaps tailn) = some widths := by
  obtain ⟨s', rfl⟩ : ∃ s', s = s' + 1 := ⟨s - 1, by omega⟩
  set Y := pulses widths gaps ++ List.replicate tailn true with hY
  have htr : mkTrace p q r (s' + 1) widths gaps tailn =
      List.replicate p true ++ (List.replicate q false ++ (List.replicate r true ++
        false :: (List.replicate s' false ++ Y))) := by
    simp [mkTrace, hY, List.replicate_succ, List.append_assoc]
  rw [htr]
  have hfs := findStartAux_marker p q r hq hr (List.replicate s' false ++ Y)
  have hassoc : List.replicate p true ++ (List.replicate q false ++ (List.replicate r true ++
      false :: (List.replicate s' false ++ Y))) =
      (List.replicate p true ++ List.replicate q false ++ List.replicate r true) ++
        (false :: (List.replicate s' false ++ Y)) := by
    simp [List.append_assoc]
  have hlenT : (List.replicate p true ++ (List.replicate q false ++ (List.replicate r true ++
      false :: (List.replicate s' false ++ Y)))).length = p + q + r + 1 + s' + Y.length := by
    simp
    omega
  have hne : List.replicate p true ++ (List.replicate q false ++ (List.replicate r true ++
      false :: (List.replicate s' false ++ Y))) ≠ [] :=
    List.length_pos.mp (by rw [hlenT]; omega)
  have hdrop : (List.replicate p true ++ (List.replicate q false ++ (List.replicate r true ++
      false :: (List.replicate s' false ++ Y)))).drop (p + q + r) =
      false :: (List.replicate s' false ++ Y) := by
    rw [hassoc]
    exact List.drop_left' (by simp only [List.length_append, List.length_replicate])
  rw [parse_eq_break _ (p + q + r) hne hfs (by rw [hlenT]; omega)]
  rw [hdrop]
  have hrep : (false :: (List.replicate s' false ++ Y)) = List.replicate (s' + 1) false ++ Y := by
    simp [List.replicate_succ]
  rw [hrep, countRuns_skip_low, hY]
  rw [countRuns_pulses tailn widths gaps (by omega) hw hg]

/-- Witness for C7: a concrete well-formed trace (idle prefix of 1 High,
marker Low·High·High·Low, forty width-1 pulses with width-1 gaps, trailing
High run of length 3) parses to the forty run lengths. -/
theorem well_formed_trace_parses_witness :
    parse_input_data (mkTrace 1 1 2 1 (List.replicate 40 1) (List.replicate 40 1) 3) =
      some (List.replicate 40 1) :=
  well_formed_trace_parses 1 1 2 1 3 (List.replicate 40 1) (List.replicate 40 1)
    (by norm_num) (by norm_num) (by norm_num) (by decide) (by decide)
    (fun w hw => by rw [List.eq_of_mem_replicate hw]; norm_num)
    (fun g hg => by rw [List.eq_of_mem_replicate hg]; norm_num)

/-! ### C2 - traces without a start-of-frame pattern -/

/-- Lifting a Low occurrence over a new head sample. -/
theorem hasL_cons (d : Bool) (l : List Bool) (h : hasL l) : hasL (d :: l) := by
  obtain ⟨c, hc, hv⟩ := h
  refine ⟨c + 1, ?_, by simpa using hv⟩
  simp only [List.length_cons]
  omega

/-- A Low head sample is a Low occurrence. -/
theorem hasL_head (l : List Bool) : hasL (false :: l) :=
  ⟨0, by simp, by simp⟩

/-- Lifting a High-then-Low occurrence over a new head sample. -/
theorem hasHL_cons (d : Bool) (l : List Bool) (h : hasHL l) : hasHL (d :: l) := by
  obtain ⟨c, hc, b, hb, hvb, hvc⟩ := h
  refine ⟨c + 1, ?_, b + 1, by omega, by simpa using hvb, by simpa using hvc⟩
  simp only [List.length_cons]
  omega

/-- A High head with a later Low is a High-then-Low occurrence. -/
theorem hasHL_of_true (l : List Bool) (h : hasL l) : hasHL (true :: l) := by
  obtain ⟨c, hc, hv⟩ := h
  refine ⟨c + 1, ?_, 0, by omega, by simp, by simpa using hv⟩
  simp only [List.length_cons]
  omega

/-- Lifting a Low-High-Low pattern over a new head sample. -/
theorem hasLHL_cons (d : Bool) (l : List Bool) (h : hasLHL l) : hasLHL (d :: l) := by
  obtain ⟨c, hc, b, hb, a, ha, hva, hvb, hvc⟩ := h
  refine ⟨c + 1, ?_, b + 1, by omega, a + 1, by omega,
    by simpa using hva, by simpa using hvb, by simpa using hvc⟩
  simp only [List.length_cons]
  omega

/-- A Low head with a later High-then-Low is a full Low-High-Low pattern. -/
theorem hasLHL_of_false (l : List Bool) (h : hasHL l) : hasLHL (false :: l) := by
  obtain ⟨c, hc, b, hb, hvb, hvc⟩ := h
  refine ⟨c + 1, ?_, b + 1, by omega, 0, by omega,
    by simp, by simpa using hvb, by simpa using hvc⟩
  simp only [List.length_cons]
  omega

/-- With any `pattern` state above 2 (unreachable in the program), a sample
leaves the scan state unchanged. -/
theorem findStartAux_big (idx n : Nat) (d : Bool) (l : List Bool) :
    findStartAux idx (n + 3) (d :: l) = findStartAux (idx + 1) (n + 3) l := rfl

/-- If the marker scan breaks, the scanned samples contain the pattern the
current state still waits for: a Low from state 2, High-then-Low from
state 1, and a full Low-High-Low pattern from the initial state 0. -/
theorem findStartAux_break_pattern (l : List Bool) : ∀ (idx pat : Nat),
    (findStartAux idx pat l).2 = true →
    (pat = 2 → hasL l) ∧ (pat = 1 → hasHL l) ∧ (pat = 0 → hasLHL l) := by
  induction l with
  | nil =>
    intro idx pat h
    simp [findStartAux] at h
  | cons d rest ih =>
    intro idx pat h
    rcases Nat.lt_or_ge pat 3 with h3 | h3
    · interval_cases pat
      · cases d
        · rw [findStartAux_l0] at h
          have hp := (ih (idx + 1) 1 h).2.1 rfl
          exact ⟨fun hc => absurd hc (by decide), fun hc => absurd hc (by decide),
            fun _ => hasLHL_of_false rest hp⟩
        · rw [findStartAux_h0] at h
          have hp := (ih (idx + 1) 0 h).2.2 rfl
          exact ⟨fun hc => absurd hc (by decide), fun hc => absurd hc (by decide),
            fun _ => hasLHL_cons true rest hp⟩
      · cases d
        · rw [findStartAux_l1] at h
          have hp := (ih (idx + 1) 1 h).2.1 rfl
          exact ⟨fun hc => absurd hc (by decide), fun _ => hasHL_cons false rest hp,
            fun hc => absurd hc (by decide)⟩
        · rw [findStartAux_h1] at h
          have hp := (ih (idx + 1) 2 h).1 rfl
          exact ⟨fun hc => absurd hc (by decide), fun _ => hasHL_of_true rest hp,
            fun hc => absurd hc (by decide)⟩
      · cases d
        · exact ⟨fun _ => hasL_head rest, fun hc => absurd hc (by decide),
            fun hc => absurd hc (by decide)⟩
        · rw [findStartAux_h2] at h
          have hp := (ih (idx + 1) 2 h).1 rfl
          exact ⟨fun _ => hasL_cons true rest hp, fun hc => absurd hc (by decide),
            fun hc => absurd hc (by decide)⟩
    · obtain ⟨n, rfl⟩ : ∃ n, pat = n + 3 := ⟨pat - 3, by omega⟩
      exact ⟨fun hc => absurd hc (by omega), fun hc => absurd hc (by omega),
        fun hc => absurd hc (by omega)⟩

/-- Dropping all but the last sample of a non-empty trace leaves a
singleton. -/
theorem drop_len_sub_one : ∀ (l : List Bool), l ≠ [] → ∃ x, l.drop (l.length - 1) = [x]
  | [], h => absurd rfl h
  | [a], _ => ⟨a, rfl⟩
  | a :: b :: t, _ => by
    obtain ⟨x, hx⟩ := drop_len_sub_one (b :: t) (by simp)
    refine ⟨x, ?_⟩
    have hidx : (a :: b :: t).length - 1 = ((b :: t).length - 1) + 1 := by
      simp
    rw [hidx, List.drop_succ_cons]
    exact hx

/-- C2 counterexample: on the empty trace `__parse_input_data` does not
return the empty pulse sequence; it raises an uncaught `UnboundLocalError`
(the loop variable `i` is never bound), modelled as `none`. -/
theorem parse_empty_trace_errors : parse_input_data [] = none := rfl

/-- C2 (amended): for every NON-EMPTY trace containing no Low-then-High-
then-Low pattern, `__parse_input_data` returns the empty pulse sequence;
on the empty trace it instead raises `UnboundLocalError`. -/
theorem no_pattern_parses_empty (data : List Bool) (hne : data ≠ [])
    (hno : ¬ hasLHL data) : parse_input_data data = some [] := by
  have hfs : (findStartAux 0 0 data).2 = false := by
    by_contra hb
    rw [Bool.not_eq_false] at hb
    exact hno ((findStartAux_break_pattern data 0 0 hb).2.2 rfl)
  rw [parse_eq_no_break data hne hfs]
  obtain ⟨x, hx⟩ := drop_len_sub_one data hne
  rw [hx]
  cases x <;> rfl

/-- Witness for the amended C2 at the all-High singleton trace, which
contains no Low sample at all. -/
theorem no_pattern_parses_empty_witness : parse_input_data [true] = some [] :=
  no_pattern_parses_empty [true] (by simp)
    (fun h => by obtain ⟨c, hc, b, hb, a, ha, -⟩ := h; simp at hc; omega)

/-! ### Retry controller lemmas (C1, C8, C10) -/

/-- A successful attempt always builds its response with status
`STATUS_OK` (line 299-300). -/
theorem attempt_success_status (trace : List Bool) (r : Response)
    (h : attempt trace = .success r) : r.status = STATUS_OK := by
  unfold attempt at h
  rcases hp : parse_input_data trace with _ | signals <;> rw [hp] at h
  · simp at h
  · by_cases hl : signals.length = 40
    · simp only [hl] at h
      by_cases hv : validate_checksum (calculate_bits signals) = true
      · simp only [hv, if_true, reduceIte] at h
        simp at h
        rw [← h]
      · simp [hv] at h
    · simp [hl] at h

/-- If the first `k` attempts (from attempt number `t`) raise a
`DHT11Error` and attempt `t + k` succeeds, the retry loop returns that
response, with `k` additional delays of `min_interval` seconds. -/
theorem readLoop_success (traces : Nat → List Bool) (mi : ℚ) (resp : Response) :
    ∀ (k remaining t : Nat) (s : List ℚ), k < remaining →
      (∀ j < k, (attempt (traces (t + j))).isFailure = true) →
      attempt (traces (t + k)) = .success resp →
      readLoop traces mi remaining t s =
        ⟨.ok resp, t + k + 1, s ++ List.replicate k mi⟩ := by
  intro k
  induction k with
  | zero =>
    intro remaining t s hlt hfail hsucc
    obtain ⟨r', rfl⟩ : ∃ r', remaining = r' + 1 := ⟨remaining - 1, by omega⟩
    rw [show t + 0 = t from rfl] at hsucc
    simp [readLoop, hsucc]
  | succ n ih =>
    intro remaining t s hlt hfail hsucc
    obtain ⟨r', rfl⟩ : ∃ r', remaining = r' + 1 := ⟨remaining - 1, by omega⟩
    have hf0 : (attempt (traces t)).isFailure = true := by
      have := hfail 0 (by omega)
      simpa using this
    rcases ha : attempt (traces t) with r | e | e
    · rw [ha] at hf0
      simp [AttemptResult.isFailure] at hf0
    · have hrec := ih r' (t + 1) (s ++ [mi]) (by omega)
        (fun j hj => by
          have := hfail (j + 1) (by omega)
          simpa [show t + 1 + j = t + (j + 1) by omega] using this)
        (by rw [show t + 1 + n = t + (n + 1) by omega]; exact hsucc)
      simp only [readLoop, ha]
      rw [hrec]
      have hs : (s ++ [mi]) ++ List.replicate n mi = s ++ List.replicate (n + 1) mi := by
        simp [List.replicate_succ, List.append_assoc]
      have hn : t + 1 + n + 1 = t + (n + 1) + 1 := by omega
      rw [hs, hn]
    · rw [ha] at hf0
      simp [AttemptResult.isFailure] at hf0

/-- If every attempt within the remaining budget raises a `DHT11Error`, the
loop exhausts the budget, having slept `min_interval` once per attempt, and
then hits the unbound `self.raise_error` attribute. -/
theorem readLoop_exhaust (traces : Nat → List Bool) (mi : ℚ) :
    ∀ (remaining t : Nat) (s : List ℚ),
      (∀ j < remaining, (attempt (traces (t + j))).isFailure = true) →
      readLoop traces mi remaining t s =
        ⟨.err .attributeError, t + remaining, s ++ List.replicate remaining mi⟩ := by
  intro remaining
  induction remaining with
  | zero =>
    intro t s _
    simp [readLoop]
  | succ n ih =>
    intro t s hfail
    have hf0 : (attempt (traces t)).isFailure = true := by
      have := hfail 0 (by omega)
      simpa using this
    rcases ha : attempt (traces t) with r | e | e
    · rw [ha] at hf0
      simp [AttemptResult.isFailure] at hf0
    · simp only [readLoop, ha]
      rw [ih (t + 1) (s ++ [mi])
        (fun j hj => by
          have := hfail (j + 1) (by omega)
          simpa [show t + 1 + j = t + (j + 1) by omega] using this)]
      have hs : (s ++ [mi]) ++ List.replicate n mi = s ++ List.replicate (n + 1) mi := by
        simp [List.replicate_succ, List.append_assoc]
      have hn : t + 1 + n = t + (n + 1) := by omega
      rw [hs, hn]
    · rw [ha] at hf0
      simp [AttemptResult.isFailure] at hf0

/-- C1 (evaluation of the buggy exhaustion path): for a sensor constructed
with any `raise_error` flag, if every attempt raises a `DHT11Error`, then
after exactly `max_tries` attempts and `max_tries` delays `read` evaluates
`self.raise_error` - an attribute `__init__` never assigned - and raises
`AttributeError`; it neither returns a `STATUS_ERROR_TIMEOUT` response (the
flag `false` behaviour the claim states) nor raises `DHT11TimeoutError`
(the flag `true` behaviour the claim states). -/
theorem exhaustion_raises_attribute_error (pin N : Nat) (mi : ℚ) (re : Bool)
    (traces : Nat → List Bool)
    (hfail : ∀ j < N, (attempt (traces j)).isFailure = true) :
    DHT11.read (DHT11.init pin N mi re) traces =
      ⟨.err .attributeError, N, List.replicate N mi⟩ := by
  have h := readLoop_exhaust traces mi N 0 [] (by simpa using hfail)
  simpa [DHT11.read, DHT11.init] using h

/-- Witness for C1: a sensor with `max_tries = 2`, `raise_error = False`
and a sampler whose traces never contain 40 pulses ends with an uncaught
`AttributeError` after 2 attempts and 2 two-second delays. -/
theorem exhaustion_raises_attribute_error_witness :
    DHT11.read (DHT11.init 26 2 2 false) alwaysFail =
      ⟨.err .attributeError, 2, List.replicate 2 2⟩ :=
  exhaustion_raises_attribute_error 26 2 2 false alwaysFail
    (fun j _ => (by decide : (attempt [false]).isFailure = true))

/-- C8: for every `k < max_tries`, if the pipeline fails with a
`DHT11Error` (e.g. a pulse count different from 40) on each of the first
`k` attempts and succeeds on attempt `k + 1`, then `read()` returns the
successful attempt's response - whose status is `STATUS_OK` - performing
exactly `k + 1` attempts and exactly `k` inter-attempt delays of
`min_interval` seconds. -/
theorem retry_then_success (pin N k : Nat) (mi : ℚ) (re : Bool)
    (traces : Nat → List Bool) (resp : Response) (hk : k < N)
    (hfail : ∀ j < k, (attempt (traces j)).isFailure = true)
    (hsucc : attempt (traces k) = .success resp) :
    DHT11.read (DHT11.init pin N mi re) traces =
      ⟨.ok resp, k + 1, List.replicate k mi⟩ ∧ resp.status = STATUS_OK := by
  constructor
  · have h := readLoop_success traces mi resp k N 0 [] hk (by simpa using hfail)
      (by simpa using hsucc)
    simpa [DHT11.read, DHT11.init] using h
  · exact attempt_success_status (traces k) resp hsucc

/-- Witness for C8: one failing attempt (pulse-free trace), then the valid
all-zero trace; `read` returns the Ok response after 2 attempts and 1
delay. -/
theorem retry_then_success_witness :
    DHT11.read (DHT11.init 26 2 2 false) failThenValid =
      ⟨.ok ⟨STATUS_OK, 0, 0⟩, 1 + 1, List.replicate 1 2⟩ ∧
      (⟨STATUS_OK, 0, 0⟩ : Response).status = STATUS_OK :=
  retry_then_success 26 2 1 2 false failThenValid ⟨STATUS_OK, 0, 0⟩ (by norm_num)
    (fun j hj => by interval_cases j; decide)
    (by have h := attempt_validTrace; simpa [failThenValid] using h)

/-- Any response the retry loop returns comes out of a successful attempt,
hence carries status `STATUS_OK`. -/
theorem readLoop_ok_status (traces : Nat → List Bool) (mi : ℚ) :
    ∀ (remaining t : Nat) (s : List ℚ) (resp : Response),
      (readLoop traces mi remaining t s).outcome = .ok resp →
      resp.status = STATUS_OK := by
  intro remaining
  induction remaining with
  | zero =>
    intro t s resp h
    simp [readLoop] at h
  | succ n ih =>
    intro t s resp h
    rcases ha : attempt (traces t) with r | e | e
    · simp only [readLoop, ha] at h
      simp at h
      rw [← h]
      exact attempt_success_status (traces t) r ha
    · simp only [readLoop, ha] at h
      exact ih (t + 1) (s ++ [mi]) resp h
    · simp only [readLoop, ha] at h
      simp at h

/-- C10: `read()` never returns a response whose status is
`STATUS_ERROR_CHECKSUM`: for every sensor state and every sequence of
attempt traces, a returned response's status is `STATUS_OK` or
`STATUS_ERROR_TIMEOUT` (in fact the loop only ever returns `STATUS_OK`;
checksum mismatches merely trigger retries). -/
theorem read_never_returns_checksum_status (sensor : DHT11State)
    (traces : Nat → List Bool) (resp : Response)
    (h : (DHT11.read sensor traces).outcome = .ok resp) :
    resp.status ≠ STATUS_ERROR_CHECKSUM ∧
      (resp.status = STATUS_OK ∨ resp.status = STATUS_ERROR_TIMEOUT) := by
  have hs : resp.status = STATUS_OK :=
    readLoop_ok_status traces sensor.min_interval sensor.max_tries 0 [] resp h
  rw [hs]
  exact ⟨by decide, Or.inl rfl⟩

/-- Witness for C10 on a sensor whose single attempt succeeds with the
all-zero frame. -/
theorem read_never_returns_checksum_status_witness :
    (⟨STATUS_OK, 0, 0⟩ : Response).status ≠ STATUS_ERROR_CHECKSUM ∧
      ((⟨STATUS_OK, 0, 0⟩ : Response).status = STATUS_OK ∨
        (⟨STATUS_OK, 0, 0⟩ : Response).status = STATUS_ERROR_TIMEOUT) :=
  read_never_returns_checksum_status (DHT11.init 26 1 2 false) (fun _ => validTrace)
    ⟨STATUS_OK, 0, 0⟩
    (by simp [DHT11.read, DHT11.init, readLoop, attempt_validTrace])

/-! ### Waveform sampler lemmas (C9, C3) -/

/-- One loop iteration updates `last` to the level just sampled. -/
theorem collect_step_last (stream : Nat → Bool) (idx : Nat) :
    (if lastOf stream idx ≠ some (stream idx) then some (stream idx)
     else lastOf stream idx) = lastOf stream (idx + 1) := by
  cases idx with
  | zero => simp [lastOf]
  | succ m =>
    simp only [lastOf]
    by_cases he : stream m = stream (m + 1)
    · simp [he]
    · simp [he]

/-- One loop iteration updates `unchanged_count` to the length of the
maximal constant suffix of the samples seen so far: reset to 1 on a level
change, incremented otherwise. -/
theorem collect_step_cnt (stream : Nat → Bool) (idx : Nat) :
    (if lastOf stream idx ≠ some (stream idx) then 1
     else runlen stream idx + 1) = runlen stream (idx + 1) := by
  cases idx with
  | zero => simp [lastOf, runlen]
  | succ m =>
    simp only [lastOf]
    by_cases he : stream m = stream (m + 1)
    · simp [he, runlen]
    · have hne : ¬ (stream (m + 1) = stream m) := fun hh => he hh.symm
      simp [he, runlen, hne]

/-- Invariant run of the polling loop: starting at poll `idx` with the
loop state determined by the first `idx` samples, if the first index whose
sample prefix ends in a 200-run is `L`, the loop appends exactly the
samples `idx, …, L - 1` and stops. -/
theorem collectLoop_run (stream : Nat → Bool) (L : Nat)
    (hstop : runlen stream L = 200) (hmin : ∀ m < L, runlen stream m < 200) :
    ∀ (d idx fuel : Nat), idx + d = L → L - idx ≤ fuel →
      collectLoop stream fuel idx (lastOf stream idx) (runlen stream idx) =
        some ((List.range' idx d).map stream) := by
  intro d
  induction d with
  | zero =>
    intro idx fuel hL _hfuel
    have hidx : idx = L := by omega
    subst hidx
    cases fuel with
    | zero => simp [collectLoop, hstop]
    | succ f => simp [collectLoop, hstop]
  | succ n ih =>
    intro idx fuel hL hfuel
    have hidx : idx < L := by omega
    have hcnt : runlen stream idx < 200 := hmin idx hidx
    obtain ⟨f, rfl⟩ : ∃ f, fuel = f + 1 := ⟨fuel - 1, by omega⟩
    simp only [collectLoop, hcnt, if_true, reduceIte]
    rw [collect_step_last, collect_step_cnt]
    rw [ih (idx + 1) f (by omega) (by omega)]
    rw [List.range'_succ]
    simp

/-- C9: `__collect_input` appends one sampled level per poll and stops
exactly at the 200-run: for every level stream and every poll count `L`
whose sample prefix is the first one to end with a run of 200 identical
levels (so the run is preceded by a differing level or starts the trace,
and no shorter prefix ends in such a run), the returned trace is exactly
the first `L` samples, within any sufficient poll budget. -/
theorem collect_stops_at_stable_run (stream : Nat → Bool) (L fuel : Nat)
    (hstop : runlen stream L = 200) (hmin : ∀ m < L, runlen stream m < 200)
    (hfuel : L ≤ fuel) :
    collect_input stream fuel = some ((List.range L).map stream) := by
  have h := collectLoop_run stream L hstop hmin L 0 fuel (by omega) (by omega)
  simpa [collect_input, lastOf, runlen, List.range_eq_range'] using h

/-- Witness for C9: on a line that idles Low from the start, the loop stops
after exactly 200 polls and returns the 200 sampled Lows. -/
theorem collect_stops_at_stable_run_witness :
    collect_input constLow 200 = some ((List.range 200).map constLow) :=
  collect_stops_at_stable_run constLow 200 200 (by decide) (by decide) (by norm_num)

/-- If no sample prefix ever ends with a 200-run, the polling loop never
exits: every poll budget is exhausted with the loop still running. -/
theorem collectLoop_never (stream : Nat → Bool) (h : ∀ m, runlen stream m < 200) :
    ∀ (fuel idx : Nat),
      collectLoop stream fuel idx (lastOf stream idx) (runlen stream idx) = none := by
  intro fuel
  induction fuel with
  | zero =>
    intro idx
    simp [collectLoop, h idx]
  | succ f ih =>
    intro idx
    have hcnt := h idx
    simp only [collectLoop, hcnt, if_true, reduceIte]
    rw [collect_step_last, collect_step_cnt]
    rw [ih (idx + 1)]
    rfl

/-- C3 (amended): if the sampled line never stabilizes (no prefix of the
sampled stream ever ends with 200 identical consecutive polls), then
`__collect_input` never exits its `while` loop: within any poll budget it
returns no trace and raises no error, so the retry controller never
observes any failure - the code contains no acquisition-timeout error at
all. -/
theorem never_stable_never_returns (stream : Nat → Bool)
    (h : ∀ m, runlen stream m < 200) (fuel : Nat) :
    collect_input stream fuel = none := by
  have hl := collectLoop_never stream h fuel 0
  simpa [collect_input, lastOf, runlen] using hl

/-- On the alternating line the level flips on every poll. -/
theorem altStream_step (i : Nat) : altStream (i + 1) ≠ altStream i := by
  simp only [altStream, ne_eq, decide_eq_decide]
  omega

/-- The alternating line never accumulates even 2 unchanged polls, let
alone 200. -/
theorem altStream_runlen_lt : ∀ m, runlen altStream m < 200
  | 0 => by norm_num [runlen]
  | 1 => by norm_num [runlen]
  | n + 2 => by
    simp [runlen, altStream_step n]

/-- C3 counterexample: on a line that flips at every poll (never
stabilizes), `__collect_input` has produced no outcome whatsoever - no
trace and no error - even after a million polls; the claimed
`AcquisitionTimeout` failure (and its retry classification) never
happens, the loop simply never terminates. -/
theorem acquisition_timeout_counterexample :
    collect_input altStream 1000000 = none := by
  have hl := collectLoop_never altStream altStream_runlen_lt 1000000 0
  simpa [collect_input, lastOf, runlen] using hl

/-- Witness for the amended C3 at the alternating line with a poll budget
of 500. -/
theorem never_stable_never_returns_witness : collect_input altStream 500 = none :=
  never_stable_never_returns altStream altStream_runlen_lt 500
